import Mathlib

/-!
Verification of the metric-forwarding core of mackerel-cloudwatch-forwarder.

Go strings are modelled as lists of characters (`GoStr`).  All separator
characters handled by the code (':', '=', '.') are ASCII, so the byte-level
operations of the Go source (`strings.IndexByte`, slicing at the returned
index) coincide with the corresponding character-level operations modelled
here: a UTF-8 continuation byte never equals an ASCII byte, hence the first
occurrence and the induced split are the same in both views.
-/

/-- Model of a Go string: a list of characters. -/
abbrev GoStr := List Char

/-- Model of `strings.IndexByte`: position of the first occurrence of `c`,
`none` when absent (Go returns -1). -/
def indexByte (c : Char) : GoStr → Option Nat
  | [] => none
  | x :: xs => if x = c then some 0 else (indexByte c xs).map (· + 1)

/-- The keyword `service` (as a character list). -/
def serviceKw : GoStr := ['s', 'e', 'r', 'v', 'i', 'c', 'e']

/-- The keyword `host` (as a character list). -/
def hostKw : GoStr := ['h', 'o', 's', 't']

/-- `Label` from label.go: routing metadata carried through the CloudWatch
label field. -/
structure Label where
  service : GoStr
  hostID : GoStr
  metricName : GoStr
deriving DecidableEq, Repr

/-- The distinct error sites of `ParseLabel` (the Go code produces a distinct
`fmt.Errorf` message at each). -/
inductive LabelErr where
  /-- "either service name or host id is required but not both" (`:` missing or first). -/
  | eitherRequired
  /-- "metric name is required" (guard `idx == len(s)` on the `:` index). -/
  | metricNameRequired
  /-- "`service` or `host` is required" (`=` missing from the left segment or first). -/
  | keywordRequired
  /-- "either service name or host id is required but not both" (guard `idx == len(s)` on the `=` index). -/
  | eitherRequired2
  /-- "unknown id name" (discriminator is neither `service` nor `host`). -/
  | unknownIdName (t : GoStr)
deriving DecidableEq, Repr

/-- `ParseLabel` from label.go, translated clause by clause.  Note that the
source compares both separator indices against `len(s)`; those two guards are
kept exactly as written. -/
def ParseLabel (s : GoStr) : Except LabelErr Label :=
  match indexByte ':' s with
  | none => .error .eitherRequired
  | some idx =>
    if idx = 0 then .error .eitherRequired
    else if idx = s.length then .error .metricNameRequired
    else
      let l := s.take idx
      let name := s.drop (idx + 1)
      match indexByte '=' l with
      | none => .error .keywordRequired
      | some idx2 =>
        if idx2 = 0 then .error .keywordRequired
        else if idx2 = s.length then .error .eitherRequired2
        else
          let t := l.take idx2
          let id := l.drop (idx2 + 1)
          if t = serviceKw then .ok ⟨id, [], name⟩
          else if t = hostKw then .ok ⟨[], id, name⟩
          else .error (.unknownIdName t)

/-- `Label.String` from label.go: `service=<S>:<metric>` or `host=<H>:<metric>`
(or just `:<metric>` when both are empty, as in the source). -/
def Label.String (l : Label) : GoStr :=
  (if l.service ≠ [] then serviceKw ++ '=' :: l.service
   else if l.hostID ≠ [] then hostKw ++ '=' :: l.hostID
   else []) ++ ':' :: l.metricName

/-!
Query compiler (query.go).  `interfaceToString` is the identity on strings,
so metric tokens are modelled directly as strings.  Go panics (out-of-range
indexing into `q.Metric` or into the fixed 22-slot `lastMetric` array) are
modelled by `none`; a normal return carries the `([]cloudwatch.MetricDataQuery,
error)` pair, whose error component the source builds from its single
`return ret, nil` statement.
-/

/-- The repeat-previous sentinel token. -/
def sentinel : GoStr := ['.']

/-- The only error type `ToMetricDataQuery` could return; the payload is the
message text. -/
abbrev GoErr := GoStr

/-- `Query` from query.go (one user-supplied metric spec). -/
structure Query where
  service : GoStr
  host : GoStr
  name : GoStr
  metric : List GoStr
  stat : GoStr
deriving DecidableEq, Repr

/-- `cloudwatch.Dimension`. -/
structure Dimension where
  name : GoStr
  value : GoStr
deriving DecidableEq, Repr

/-- `cloudwatch.Metric` (namespace, metric name, dimensions). -/
structure CWMetric where
  namespc : GoStr
  metricName : GoStr
  dimensions : List Dimension
deriving DecidableEq, Repr

/-- `cloudwatch.MetricStat` (metric, period, stat). -/
structure MetricStat where
  metric : CWMetric
  period : Int
  stat : GoStr
deriving DecidableEq, Repr

/-- `cloudwatch.MetricDataQuery` (id, label, metric stat). -/
structure MetricDataQuery where
  id : GoStr
  label : GoStr
  metricStat : MetricStat
deriving DecidableEq, Repr

/-- `setDefault` from query.go: a `"."` token resolves to the remembered
value, any other token overwrites the remembered value.  Returns the pair
(resolved token, new remembered value). -/
def setDefault (ret last : GoStr) : GoStr × GoStr :=
  if ret = sentinel then (last, last) else (ret, ret)

/-- The mutable per-slot state of one `ToMetricDataQuery` call:
`lastMetric [22]string` plus `lastHost`, `lastService`, `lastStat`. -/
structure CompState where
  lastMetric : List GoStr
  lastHost : GoStr
  lastService : GoStr
  lastStat : GoStr
deriving DecidableEq, Repr

/-- Zero-value state at the start of a call: 22 empty metric slots and empty
last host/service/stat. -/
def initCompState : CompState :=
  ⟨List.replicate 22 [], [], [], []⟩

/-- Resolve a token against slot `j` of the `lastMetric` array.  Accessing a
slot beyond the fixed array size panics in Go, modelled by `none`. -/
def setDefaultSlot (tok : GoStr) (slots : List GoStr) (j : Nat) :
    Option (GoStr × List GoStr) :=
  match slots.get? j with
  | none => none
  | some last =>
    let p := setDefault tok last
    some (p.1, slots.set j p.2)

/-- The dimension loop of `ToMetricDataQuery`:
`for j := 2; j+1 < len(q.Metric); j += 2`, recursing over the tokens from
index `j` on (two per iteration; a lone trailing token is ignored).  `j` is
the absolute index of the current token pair, used to address the
`lastMetric` slots. -/
def dimLoop (slots : List GoStr) (j : Nat) :
    List GoStr → Option (List Dimension × List GoStr)
  | dn :: dv :: rest =>
    match setDefaultSlot dn slots j with
    | none => none
    | some (dnR, s1) =>
      match setDefaultSlot dv s1 (j + 1) with
      | none => none
      | some (dvR, s2) =>
        match dimLoop s2 (j + 2) rest with
        | none => none
        | some (dims, s3) => some (⟨dnR, dvR⟩ :: dims, s3)
  | _ => some ([], slots)

/-- The id `fmt.Sprintf("m%d", i+1)` assigned to the query built from the
spec at 0-based input position `i`. -/
def mkId (i : Nat) : GoStr := 'm' :: Nat.toDigits 10 (i + 1)

/-- The loop body of `ToMetricDataQuery`, recursing over the remaining specs
with the running slot state and the 0-based input index `i`. -/
def ToMetricDataQueryGo (st : CompState) (i : Nat) :
    List Query → Option (List MetricDataQuery × Option GoErr)
  | [] => some ([], none)
  | q :: rest =>
    let ph := setDefault q.host st.lastHost
    let ps := setDefault q.service st.lastService
    let pt := setDefault q.stat st.lastStat
    if (ph.1 = []) ↔ (ps.1 = []) then
      -- "either service name or host id is required but not both, skips"
      ToMetricDataQueryGo ⟨st.lastMetric, ph.2, ps.2, pt.2⟩ (i + 1) rest
    else
      -- len(q.Metric) < 2 only logs a warning; the code then indexes
      -- q.Metric[0] and q.Metric[1] unconditionally (panic when absent).
      match q.metric.get? 0 with
      | none => none
      | some ns0 =>
        match setDefaultSlot ns0 st.lastMetric 0 with
        | none => none
        | some (nsR, s1) =>
          match q.metric.get? 1 with
          | none => none
          | some nm0 =>
            match setDefaultSlot nm0 s1 1 with
            | none => none
            | some (nmR, s2) =>
              match dimLoop s2 2 (q.metric.drop 2) with
              | none => none
              | some (dims, s3) =>
                let mdq : MetricDataQuery :=
                  ⟨mkId i, Label.String ⟨ps.1, ph.1, q.name⟩, ⟨⟨nsR, nmR, dims⟩, 60, pt.1⟩⟩
                match ToMetricDataQueryGo ⟨s3, ph.2, ps.2, pt.2⟩ (i + 1) rest with
                | none => none
                | some (retRest, e) => some (mdq :: retRest, e)

/-- `ToMetricDataQuery` from query.go: `none` models a Go panic, otherwise
the returned `(queries, error)` pair. -/
def ToMetricDataQuery (qs : List Query) : Option (List MetricDataQuery × Option GoErr) :=
  ToMetricDataQueryGo initCompState 0 qs

/-!
Pending metric collections (the forwarder source).  Metric values carry a
float64 payload that the core never computes with — it is only moved around —
so the payload is modelled by the opaque carrier type `Val`.  Times are unix
seconds (`int64`), modelled by `Int`.  The Go map
`serviceMetricsType map[string][]ServiceMetricValue` is modelled as an
association list with at most one entry per service key.
-/

/-- Opaque model of the float64 metric payload (never computed with). -/
abbrev Val := Int

/-- `ServiceMetricValue` from mackerel.go. -/
structure ServiceMetricValue where
  name : GoStr
  time : Int
  value : Val
deriving DecidableEq, Repr

/-- `HostMetricValue` from mackerel.go. -/
structure HostMetricValue where
  hostID : GoStr
  name : GoStr
  time : Int
  value : Val
deriving DecidableEq, Repr

/-- `serviceMetricsType`: map from service name to its metric values. -/
abbrev serviceMetricsType := List (GoStr × List ServiceMetricValue)

/-- `hostMetricsType`: the single shared list of host metric values. -/
abbrev hostMetricsType := List HostMetricValue

/-- Go map read `(*m)[service]` (zero value `nil` when absent). -/
def smLookup : serviceMetricsType → GoStr → List ServiceMetricValue
  | [], _ => []
  | (k, ms) :: rest, s => if k = s then ms else smLookup rest s

/-- Go map write `(*m)[service] = ms`. -/
def smStore : serviceMetricsType → GoStr → List ServiceMetricValue → serviceMetricsType
  | [], s, ms => [(s, ms)]
  | (k, m0) :: rest, s, ms =>
    if k = s then (s, ms) :: rest else (k, m0) :: smStore rest s ms

/-- The inner loop of `serviceMetricsType.Append`: overwrite the first entry
with the same (Name, Time) key, otherwise append the new value. -/
def smAppendList (ms : List ServiceMetricValue) (v : ServiceMetricValue) :
    List ServiceMetricValue :=
  match ms with
  | [] => [v]
  | m :: rest =>
    if m.name = v.name ∧ m.time = v.time then v :: rest
    else m :: smAppendList rest v

/-- `serviceMetricsType.Append`. -/
def serviceMetricsType.Append (m : serviceMetricsType) (service : GoStr)
    (v : ServiceMetricValue) : serviceMetricsType :=
  smStore m service (smAppendList (smLookup m service) v)

/-- `hostMetricsType.Append`: overwrite the first entry with the same
(HostID, Name, Time) key, otherwise append the new value. -/
def hostMetricsType.Append (m : hostMetricsType) (v : HostMetricValue) :
    hostMetricsType :=
  match m with
  | [] => [v]
  | w :: rest =>
    if w.hostID = v.hostID ∧ w.name = v.name ∧ w.time = v.time then v :: rest
    else w :: hostMetricsType.Append rest v

/-- The per-service filtering loop of `serviceMetricsType.Drop`: keep values
with `Time >= unix`, count the removed ones (order preserved, as in the
filtering-without-allocating idiom of the source). -/
def smDropList (unix : Int) : List ServiceMetricValue → List ServiceMetricValue × Nat
  | [] => ([], 0)
  | v :: rest =>
    let p := smDropList unix rest
    if v.time ≥ unix then (v :: p.1, p.2) else (p.1, p.2 + 1)

/-- `serviceMetricsType.Drop`: filter every per-service list, delete services
left empty, return the total removed count. -/
def serviceMetricsType.Drop (m : serviceMetricsType) (unix : Int) :
    serviceMetricsType × Nat :=
  match m with
  | [] => ([], 0)
  | (s, ms) :: rest =>
    let p := smDropList unix ms
    let q := serviceMetricsType.Drop rest unix
    if p.1 ≠ [] then ((s, p.1) :: q.1, p.2 + q.2) else (q.1, p.2 + q.2)

/-- `hostMetricsType.Drop`: keep values with `Time >= unix`, return the
removed count. -/
def hostMetricsType.Drop (m : hostMetricsType) (unix : Int) :
    hostMetricsType × Nat :=
  match m with
  | [] => ([], 0)
  | v :: rest =>
    let p := hostMetricsType.Drop rest unix
    if v.time ≥ unix then (v :: p.1, p.2) else (p.1, p.2 + 1)

/-- The expiry phase at the start of `Forwarder.forwardMetrics`: the source
drops entries older than `now.Add(-6 * time.Hour)` from `pendingHostMetrics`
only — `pendingServiceMetrics` is left untouched (its `Drop` method is never
called).  Returns the pending collections after the phase and the logged
removal count. -/
def forwardDropPhase (pendingService : serviceMetricsType)
    (pendingHost : hostMetricsType) (nowUnix : Int) :
    serviceMetricsType × hostMetricsType × Nat :=
  let p := hostMetricsType.Drop pendingHost (nowUnix - 21600)
  (pendingService, p.1, p.2)

/-!
Result extraction (`forwardContext.getMetricsData`).  The CloudWatch
pagination capability is modelled by the list of pages it yields, each page a
list of `MetricDataResult` rows carrying the raw label and the parallel
timestamp/value arrays (parallel by the provider's contract; the Go code
indexes `result.Values` by the timestamp index, modelled here by `zip`).
The compiled per-label defaults map produced by the query compiler is taken
as the input `defaults`, exactly as `getMetricsData` receives it from
`ToMetricDataQuery`.
-/

/-- One row of a `GetMetricData` page. -/
structure MetricDataResult where
  label : GoStr
  timestamps : List Int
  values : List Val
deriving DecidableEq, Repr

/-- The accumulator pair threaded through extraction. -/
abbrev MetricsAcc := serviceMetricsType × hostMetricsType

/-- Append one (timestamp, value) pair for a decoded label: service metrics
when `label.Service != ""`, else host metrics when `label.HostID != ""`. -/
def appendPoint (lab : Label) (t : Int) (v : Val) (acc : MetricsAcc) : MetricsAcc :=
  if lab.service ≠ [] then
    (acc.1.Append lab.service ⟨lab.metricName, t, v⟩, acc.2)
  else if lab.hostID ≠ [] then
    (acc.1, acc.2.Append ⟨lab.hostID, lab.metricName, t, v⟩)
  else acc

/-- Fold `appendPoint` over the parallel timestamp/value pairs of one row. -/
def appendPoints (lab : Label) : List (Int × Val) → MetricsAcc → MetricsAcc
  | [], acc => acc
  | (t, v) :: rest, acc => appendPoints lab rest (appendPoint lab t v acc)

/-- Process one result row: mark the raw label as seen when the row has a
non-empty value array, decode the label (a failure aborts the whole fetch),
then accumulate every datapoint. -/
def processResult (acc : MetricsAcc) (seen : List GoStr) (r : MetricDataResult) :
    Except LabelErr (MetricsAcc × List GoStr) :=
  let seen1 := if r.values ≠ [] then r.label :: seen else seen
  match ParseLabel r.label with
  | .error e => .error e
  | .ok lab => .ok (appendPoints lab (r.timestamps.zip r.values) acc, seen1)

/-- Process the rows of one page in order. -/
def processRows (acc : MetricsAcc) (seen : List GoStr) :
    List MetricDataResult → Except LabelErr (MetricsAcc × List GoStr)
  | [] => .ok (acc, seen)
  | r :: rest =>
    match processResult acc seen r with
    | .error e => .error e
    | .ok (acc1, seen1) => processRows acc1 seen1 rest

/-- Drive the paginator until no pages remain. -/
def processPages (acc : MetricsAcc) (seen : List GoStr) :
    List (List MetricDataResult) → Except LabelErr (MetricsAcc × List GoStr)
  | [] => .ok (acc, seen)
  | page :: rest =>
    match processRows acc seen page with
    | .error e => .error e
    | .ok (acc1, seen1) => processPages acc1 seen1 rest

/-- Synthesize the default value for one unseen label at the window-start
timestamp. -/
def applyDefault1 (lab : Label) (v : Val) (startUnix : Int) (acc : MetricsAcc) :
    MetricsAcc :=
  appendPoint lab startUnix v acc

/-- The defaults loop after all pages are consumed: every registered label
that was not seen gets one synthesized value at the window-start timestamp. -/
def applyDefaults (seen : List GoStr) (startUnix : Int) :
    List (GoStr × Val) → MetricsAcc → Except LabelErr MetricsAcc
  | [], acc => .ok acc
  | (l, v) :: rest, acc =>
    if l ∈ seen then applyDefaults seen startUnix rest acc
    else
      match ParseLabel l with
      | .error e => .error e
      | .ok lab => applyDefaults seen startUnix rest (applyDefault1 lab v startUnix acc)

/-- `forwardContext.getMetricsData`, starting after the compiler call: walk
all pages, then fill in defaults for unseen labels. -/
def getMetricsData (pages : List (List MetricDataResult))
    (defaults : List (GoStr × Val)) (startUnix : Int) (acc : MetricsAcc) :
    Except LabelErr MetricsAcc :=
  match processPages acc [] pages with
  | .error e => .error e
  | .ok (acc1, seen) => applyDefaults seen startUnix defaults acc1

/-- The labels that produced at least one non-empty row across all pages
(the "seen" set, as a pure function of the pages). -/
def seenLabels (pages : List (List MetricDataResult)) : List GoStr :=
  ((pages.flatten).filter (fun r => !r.values.isEmpty)).map (fun r => r.label)

/-- The labels of the rows of one page that carry a non-empty value array. -/
def rowsSeen (rows : List MetricDataResult) : List GoStr :=
  (rows.filter (fun r => !r.values.isEmpty)).map (fun r => r.label)

/-!
Delivery client (mackerel.go).  The HTTP transport is modelled by the
sequence of responses it would return, one per attempt.  The status/body
handling (`postJSON`, `handleError`, `Error.Temporary`) is translated from
the source; the retry driver `RetryPolicy.Do` comes from the go-retry
dependency, outside this repository's sources, and is modelled from the spec.
-/

/-- One HTTP response: status code and body text. -/
structure HttpResp where
  statusCode : Int
  body : GoStr
deriving DecidableEq, Repr

/-- `Error` from mackerel.go (named `MackerelError` here to avoid clashing
with Lean's `Error`): the status code and the response body text. -/
structure MackerelError where
  statusCode : Int
  message : GoStr
deriving DecidableEq, Repr

/-- `Error.Temporary`: a 5xx status or HTTP 429 is retryable. -/
def MackerelError.Temporary (e : MackerelError) : Bool :=
  (500 ≤ e.statusCode) || (e.statusCode = 429)

/-- `handleError`: build the error from the non-2xx response, carrying its
status code and body text. -/
def handleError (resp : HttpResp) : MackerelError :=
  ⟨resp.statusCode, resp.body⟩

/-- The outcome of one `postJSON` attempt given the transport's response:
`none` on 2xx, otherwise the error built by `handleError`. -/
def postJSONResult (resp : HttpResp) : Option MackerelError :=
  if resp.statusCode < 200 ∨ 300 ≤ resp.statusCode then some (handleError resp)
  else none

/-- Modelled from the spec: the retry driver (`retry.Policy.Do` of the
go-retry dependency, which is not part of this repository's sources).  Per
the spec's delivery-client design: bounded attempts up to the policy's
maximum count; a retryable (temporary) error triggers another attempt; a
fatal error is returned immediately; exhausting the budget returns the last
observed error.  `i` is the number of attempts already made and `fuel` the
attempts remaining; the result pairs the final outcome with the total number
of attempts. -/
def retryLoop (f : Nat → Option MackerelError) (i : Nat) :
    Nat → Option MackerelError × Nat
  | 0 => (none, i)
  | fuel + 1 =>
    match f i with
    | none => (none, i + 1)
    | some e =>
      if e.Temporary then
        match fuel with
        | 0 => (some e, i + 1)
        | fuel1 + 1 => retryLoop f (i + 1) (fuel1 + 1)
      else (some e, i + 1)

/-- Modelled from the spec: `RetryPolicy.Do` with a maximum attempt count,
running `f` on the response of each successive attempt. -/
def retryDo (maxCount : Nat) (f : Nat → Option MackerelError) :
    Option MackerelError × Nat :=
  retryLoop f 0 maxCount

/-- The production retry policy's maximum attempt count
(`NewMackerelClient`: MaxCount 10). -/
def defaultMaxCount : Nat := 10

/-- `MackerelClient.PostServiceMetricValues`: empty batches are a no-op
success; otherwise deliver through the retry policy, each attempt posting to
the service time-series endpoint and classifying the response. -/
def PostServiceMetricValues (maxCount : Nat) (responses : Nat → HttpResp)
    (values : List ServiceMetricValue) : Option MackerelError × Nat :=
  if values = [] then (none, 0)
  else retryDo maxCount (fun i => postJSONResult (responses i))

/-- `MackerelClient.PostHostMetricValues`: same shape as the service
variant, posting to the host time-series endpoint. -/
def PostHostMetricValues (maxCount : Nat) (responses : Nat → HttpResp)
    (values : List HostMetricValue) : Option MackerelError × Nat :=
  if values = [] then (none, 0)
  else retryDo maxCount (fun i => postJSONResult (responses i))

/-!
Observation helpers used to state the buffer and extraction properties.
-/

/-- The identity key of a service metric value within one service's
collection: (metric name, timestamp). -/
def smKey (n : GoStr) (t : Int) (w : ServiceMetricValue) : Bool :=
  decide (w.name = n ∧ w.time = t)

/-- The identity key of a host metric value: (host id, metric name,
timestamp). -/
def hmKey (hid n : GoStr) (t : Int) (w : HostMetricValue) : Bool :=
  decide (w.hostID = hid ∧ w.name = n ∧ w.time = t)

/-- The entries stored for service `dest` under identity key `(n, t)`. -/
def svcObs (acc : MetricsAcc) (dest n : GoStr) (t : Int) : List ServiceMetricValue :=
  (smLookup acc.1 dest).filter (smKey n t)

/-- The host entries stored under identity key `(hid, n, t)`. -/
def hostObs (acc : MetricsAcc) (hid n : GoStr) (t : Int) : List HostMetricValue :=
  acc.2.filter (hmKey hid n t)

/-- At-most-one-entry-per-identity-key for the service collections. -/
def SMOk (sm : serviceMetricsType) : Prop :=
  ∀ (s n : GoStr) (t : Int), ((smLookup sm s).filter (smKey n t)).length ≤ 1

/-- At-most-one-entry-per-identity-key for the host collection. -/
def HMOk (hm : hostMetricsType) : Prop :=
  ∀ (hid n : GoStr) (t : Int), (hm.filter (hmKey hid n t)).length ≤ 1

/-- The first decoded label routes nothing to the second's identity key:
when it targets a service entry, that entry's (service, metric name) key
differs from the second label's; when it targets a host entry, that entry's
(host id, metric name) key differs from the second label's.  Any two labels
decoded from distinct label strings satisfy this (`parseLabel_distinct`). -/
def DistinctDest (lab' lab : Label) : Prop :=
  (lab'.service ≠ [] → ¬(lab'.service = lab.service ∧ lab'.metricName = lab.metricName)) ∧
  (lab'.service = [] → lab'.hostID ≠ [] →
    ¬(lab'.hostID = lab.hostID ∧ lab'.metricName = lab.metricName))

/-! Concrete inputs used by the counterexamples and witnesses. -/

/-- The label `service=x:` (a `:` as last character — empty metric name). -/
def lblColonLast : GoStr := ['s', 'e', 'r', 'v', 'i', 'c', 'e', '=', 'x', ':']

/-- The label `service=:m` (a `=` at the end of the left segment — empty id). -/
def lblEmptyId : GoStr := ['s', 'e', 'r', 'v', 'i', 'c', 'e', '=', ':', 'm']

/-- A label value whose service name contains a `:` character. -/
def lblColonService : Label := ⟨['a', ':', 'b'], [], ['m']⟩

/-- First spec of the spec's repeat-previous example:
`{service:"foo-bar", name:"metric.sum", metric:["Namespace","MetricName"], stat:"Sum"}`. -/
def exQ1 : Query :=
  ⟨['f', 'o', 'o', '-', 'b', 'a', 'r'], [],
   ['m', 'e', 't', 'r', 'i', 'c', '.', 's', 'u', 'm'],
   [['N', 'a', 'm', 'e', 's', 'p', 'a', 'c', 'e'],
    ['M', 'e', 't', 'r', 'i', 'c', 'N', 'a', 'm', 'e']],
   ['S', 'u', 'm']⟩

/-- Second spec of the example:
`{service:".", name:"metric.average", metric:[".","."], stat:"Average"}`. -/
def exQ2 : Query :=
  ⟨['.'], [],
   ['m', 'e', 't', 'r', 'i', 'c', '.', 'a', 'v', 'e', 'r', 'a', 'g', 'e'],
   [['.'], ['.']],
   ['A', 'v', 'e', 'r', 'a', 'g', 'e']⟩

/-- Expected compilation of `exQ1`: id m1, label `service=foo-bar:metric.sum`,
Namespace/MetricName, period 60, stat Sum. -/
def exMDQ1 : MetricDataQuery :=
  ⟨['m', '1'],
   ['s', 'e', 'r', 'v', 'i', 'c', 'e', '=', 'f', 'o', 'o', '-', 'b', 'a', 'r',
    ':', 'm', 'e', 't', 'r', 'i', 'c', '.', 's', 'u', 'm'],
   ⟨⟨['N', 'a', 'm', 'e', 's', 'p', 'a', 'c', 'e'],
     ['M', 'e', 't', 'r', 'i', 'c', 'N', 'a', 'm', 'e'], []⟩, 60,
    ['S', 'u', 'm']⟩⟩

/-- Expected compilation of `exQ2`: id m2, label
`service=foo-bar:metric.average`, the repeated Namespace/MetricName, period
60, stat Average. -/
def exMDQ2 : MetricDataQuery :=
  ⟨['m', '2'],
   ['s', 'e', 'r', 'v', 'i', 'c', 'e', '=', 'f', 'o', 'o', '-', 'b', 'a', 'r',
    ':', 'm', 'e', 't', 'r', 'i', 'c', '.', 'a', 'v', 'e', 'r', 'a', 'g', 'e'],
   ⟨⟨['N', 'a', 'm', 'e', 's', 'p', 'a', 'c', 'e'],
     ['M', 'e', 't', 'r', 'i', 'c', 'N', 'a', 'm', 'e'], []⟩, 60,
    ['A', 'v', 'e', 'r', 'a', 'g', 'e']⟩⟩

/-- A spec with both service and host id set (skipped with a warning). -/
def qBothSet : Query := ⟨['s'], ['h'], ['n'], [['A'], ['B']], ['S']⟩

/-- A spec with an empty metric token list (fewer than 2 tokens). -/
def qNoTokens : Query := ⟨['s'], [], ['n'], [], ['S']⟩

/-- The single query compiled from `[qBothSet, exQ1]`: the first spec is
skipped, yet the emitted query carries id m2 (the input position), not m1. -/
def exMDQ1at2 : MetricDataQuery :=
  ⟨['m', '2'],
   ['s', 'e', 'r', 'v', 'i', 'c', 'e', '=', 'f', 'o', 'o', '-', 'b', 'a', 'r',
    ':', 'm', 'e', 't', 'r', 'i', 'c', '.', 's', 'u', 'm'],
   ⟨⟨['N', 'a', 'm', 'e', 's', 'p', 'a', 'c', 'e'],
     ['M', 'e', 't', 'r', 'i', 'c', 'N', 'a', 'm', 'e'], []⟩, 60,
    ['S', 'u', 'm']⟩⟩

/-- A pending service-metric collection holding one entry of unix time 0 for
service `s`. -/
def staleServicePending : serviceMetricsType := [(['s'], [⟨['n'], 0, 1⟩])]

/-- A pending host-metric collection holding one entry of unix time 0. -/
def staleHostPending : hostMetricsType := [⟨['h'], ['n'], 0, 1⟩]

/-- A transport yielding one 500 response and then 200s. -/
def rsTransient : Nat → HttpResp := fun i => if i = 0 then ⟨500, []⟩ else ⟨200, []⟩

/-- A transport yielding 429 on every attempt. -/
def rs429 : Nat → HttpResp := fun _ => ⟨429, []⟩

/-- A transport yielding 403 with body `fb` on every attempt. -/
def rs403 : Nat → HttpResp := fun _ => ⟨403, ['f', 'b']⟩

/-- The label `service=s:n`. -/
def c3Label : GoStr := ['s', 'e', 'r', 'v', 'i', 'c', 'e', '=', 's', ':', 'n']

/-- The accumulator produced by extracting zero pages with the single
default `(service=s:n, 5)` over window start 77. -/
def c3Acc : MetricsAcc := ([(['s'], [⟨['n'], 77, 5⟩])], [])

/-!  Theorems.  -/

/-- The error component of the compiler result is `none` for every input,
whatever state and index the loop starts from. -/
theorem toMetricDataQueryGo_err_none (qs : List Query) :
    ∀ (st : CompState) (i : Nat) (ret : List MetricDataQuery) (e : Option GoErr),
      ToMetricDataQueryGo st i qs = some (ret, e) → e = none := by
  induction qs with
  | nil =>
    intro st i ret e h
    simp only [ToMetricDataQueryGo, Option.some.injEq, Prod.mk.injEq] at h
    exact h.2.symm
  | cons q rest ih =>
    intro st i ret e h
    rw [ToMetricDataQueryGo] at h
    split at h
    · exact ih _ _ _ _ h
    · repeat' first
        | exact Option.noConfusion h
        | split at h
      rename_i retRest e2 heq
      injection h with h1
      injection h1 with h2 h3
      subst h3
      exact ih _ _ _ _ heq

/-- C10: whenever `ToMetricDataQuery` returns (rather than panicking), the
error component of its result is nil, for every input list: malformed specs
are skipped or warned about, never surfaced as a returned error. -/
theorem toMetricDataQuery_error_always_nil
    (qs : List Query) (ret : List MetricDataQuery) (e : Option GoErr)
    (h : ToMetricDataQuery qs = some (ret, e)) : e = none :=
  toMetricDataQueryGo_err_none qs initCompState 0 ret e h

/-- Witness for C10 at the concrete two-spec example. -/
theorem toMetricDataQuery_error_always_nil_witness :
    (none : Option GoErr) = none :=
  toMetricDataQuery_error_always_nil [exQ1, exQ2] [exMDQ1, exMDQ2] none rfl

/-- Every id emitted by the compiler loop is `m<j+1>` for the 0-based input
position `j` of its originating spec; those positions are strictly
increasing and lie in the input range. -/
theorem toMetricDataQueryGo_ids (qs : List Query) :
    ∀ (st : CompState) (i : Nat) (ret : List MetricDataQuery) (e : Option GoErr),
      ToMetricDataQueryGo st i qs = some (ret, e) →
      ∃ idxs : List Nat, ret.map MetricDataQuery.id = idxs.map mkId ∧
        idxs.Chain' (· < ·) ∧ ∀ j ∈ idxs, i ≤ j ∧ j < i + qs.length := by
  induction qs with
  | nil =>
    intro st i ret e h
    simp only [ToMetricDataQueryGo, Option.some.injEq, Prod.mk.injEq] at h
    exact ⟨[], by simp [← h.1], by simp, by simp⟩
  | cons q rest ih =>
    intro st i ret e h
    rw [ToMetricDataQueryGo] at h
    split at h
    · obtain ⟨idxs, h1, h2, h3⟩ := ih _ _ _ _ h
      refine ⟨idxs, h1, h2, fun j hj => ?_⟩
      have := h3 j hj
      constructor
      · omega
      · simp only [List.length_cons]
        omega
    · repeat' first
        | exact Option.noConfusion h
        | split at h
      rename_i retRest e2 heq
      injection h with h1
      injection h1 with h2 h3
      subst h2
      obtain ⟨idxs, g1, g2, g3⟩ := ih _ _ _ _ heq
      refine ⟨i :: idxs, ?_, ?_, ?_⟩
      · simp [g1]
      · refine List.Chain'.cons' g2 (fun y hy => ?_)
        have := (g3 y (List.mem_of_mem_head? hy)).1
        omega
      · intro j hj
        rcases List.mem_cons.mp hj with hj | hj
        · subst hj
          simp only [List.length_cons]
          omega
        · have := g3 j hj
          simp only [List.length_cons]
          omega

/-- C7 is violated by the code: ids are `m<position in the input list>`,
not `m<position among emitted queries>` — with a skipped first spec the
first (and only) emitted query carries id m2, not m1. -/
theorem toMetricDataQuery_id_counts_skipped :
    (ToMetricDataQuery [qBothSet, exQ1]).map (fun p => p.1.map MetricDataQuery.id) =
      some [['m', '2']] ∧ (['m', '2'] : GoStr) ≠ ['m', '1'] :=
  ⟨rfl, by decide⟩

/-- C7 amended: the query compiled from the spec at 0-based input position
`j` is assigned id `m<j+1>`, counting all input specs including skipped
ones; within one batch these positions are strictly increasing (so ids stay
stable, unique and monotonic) but not necessarily consecutive. -/
theorem toMetricDataQuery_ids_input_position
    (qs : List Query) (ret : List MetricDataQuery) (e : Option GoErr)
    (h : ToMetricDataQuery qs = some (ret, e)) :
    ∃ idxs : List Nat, ret.map MetricDataQuery.id = idxs.map mkId ∧
      idxs.Chain' (· < ·) ∧ ∀ j ∈ idxs, j < qs.length := by
  obtain ⟨idxs, h1, h2, h3⟩ := toMetricDataQueryGo_ids qs initCompState 0 ret e h
  exact ⟨idxs, h1, h2, fun j hj => by have := (h3 j hj).2; omega⟩

/-- Witness for the amended C7 at the skipped-first-spec example. -/
theorem toMetricDataQuery_ids_input_position_witness :
    ∃ idxs : List Nat,
      [exMDQ1at2].map MetricDataQuery.id = idxs.map mkId ∧
      idxs.Chain' (· < ·) ∧ ∀ j ∈ idxs, j < [qBothSet, exQ1].length :=
  toMetricDataQuery_ids_input_position [qBothSet, exQ1] [exMDQ1at2] none rfl

/-- C2 is violated by the code: `ParseLabel` accepts `service=x:` (the `:`
separator as last character, yielding an empty metric name) and accepts
`service=:m` (the `=` at the right boundary of the left segment, yielding an
empty id), because both rejection guards compare the separator index with
`len(s)`, a value `strings.IndexByte` can never return. -/
theorem parseLabel_accepts_malformed :
    ParseLabel lblColonLast = .ok ⟨['x'], [], []⟩ ∧
    ParseLabel lblEmptyId = .ok ⟨[], [], ['m']⟩ :=
  ⟨rfl, rfl⟩

/-- C6: compiling the spec's two-entry example resolves the second entry's
sentinel tokens to service `foo-bar`, namespace `Namespace` and metric name
`MetricName`; and `setDefault` resolves a sentinel token to the remembered
slot value while any concrete token becomes the new remembered value. -/
theorem toMetricDataQuery_sentinel_example :
    ToMetricDataQuery [exQ1, exQ2] = some ([exMDQ1, exMDQ2], none) ∧
    (∀ last : GoStr, setDefault sentinel last = (last, last)) ∧
    (∀ v last : GoStr, v ≠ sentinel → setDefault v last = (v, v)) :=
  ⟨rfl, fun last => by simp [setDefault],
   fun v last h => by simp [setDefault, h]⟩

/-- Witness for C6: the compiled example plus a concrete non-sentinel token. -/
theorem toMetricDataQuery_sentinel_example_witness :
    ToMetricDataQuery [exQ1, exQ2] = some ([exMDQ1, exMDQ2], none) ∧
    setDefault ['x'] ['y'] = (['x'], ['x']) :=
  ⟨toMetricDataQuery_sentinel_example.1,
   toMetricDataQuery_sentinel_example.2.2 ['x'] ['y'] (by decide)⟩

/-- C8 is violated by the code: a spec whose metric token list has fewer
than 2 tokens makes `ToMetricDataQuery` index `q.Metric[0]` out of range
right after logging the warning (whose text even says "skips" although no
skip happens), so the whole batch aborts with a panic instead of completing. -/
theorem toMetricDataQuery_short_tokens_panics :
    ToMetricDataQuery [qNoTokens] = none ∧
    ToMetricDataQuery [qNoTokens, exQ1] = none :=
  ⟨rfl, rfl⟩

/-- `indexByte` over a concatenation whose first part misses the character:
the index shifts by the first part's length. -/
theorem indexByte_append (c : Char) (a b : List Char) (h : c ∉ a) :
    indexByte c (a ++ b) = (indexByte c b).map (· + a.length) := by
  induction a with
  | nil =>
    cases hib : indexByte c b <;> simp [hib]
  | cons x xs ih =>
    have hx : ¬(x = c) := fun he => h (he ▸ List.mem_cons_self x xs)
    have hxs : c ∉ xs := fun hm => h (List.mem_cons_of_mem x hm)
    cases hib : indexByte c b with
    | none => simp [indexByte, hx, ih hxs, hib]
    | some k =>
      simp [indexByte, hx, ih hxs, hib]
      omega

/-- The first occurrence of `c` in `pre ++ c :: rest` with `c ∉ pre` is at
position `pre.length`. -/
theorem indexByte_split (c : Char) (pre rest : List Char) (h : c ∉ pre) :
    indexByte c (pre ++ c :: rest) = some pre.length := by
  rw [indexByte_append c pre (c :: rest) h]
  simp [indexByte]

/-- A found index splits the string around the found character. -/
theorem indexByte_some (c : Char) :
    ∀ (s : GoStr) (i : Nat), indexByte c s = some i →
      s.take i ++ c :: s.drop (i + 1) = s := by
  intro s
  induction s with
  | nil => intro i h; exact Option.noConfusion h
  | cons x xs ih =>
    intro i h
    by_cases hx : x = c
    · simp only [indexByte, if_pos hx] at h
      injection h with h0
      subst h0
      simp [hx]
    · simp only [indexByte, if_neg hx] at h
      cases hib : indexByte c xs with
      | none =>
        rw [hib] at h
        exact Option.noConfusion h
      | some i2 =>
        rw [hib] at h
        injection h with h1
        subst h1
        rw [List.take_succ_cons, List.drop_succ_cons]
        exact congrArg (x :: ·) (ih i2 hib)

/-- A successfully decoded label determines its label string: a service
label came from `service=<id>:<name>`, a host label from `host=<id>:<name>`. -/
theorem ParseLabel_reconstruct (l : GoStr) (lab : Label)
    (h : ParseLabel l = .ok lab) :
    (lab.service ≠ [] → l = (serviceKw ++ '=' :: lab.service) ++ ':' :: lab.metricName) ∧
    (lab.hostID ≠ [] → l = (hostKw ++ '=' :: lab.hostID) ++ ':' :: lab.metricName) := by
  simp only [ParseLabel] at h
  split at h
  · exact Except.noConfusion h
  · rename_i idx heq1
    split at h
    · exact Except.noConfusion h
    · split at h
      · exact Except.noConfusion h
      · split at h
        · exact Except.noConfusion h
        · rename_i idx2 heq2
          split at h
          · exact Except.noConfusion h
          · split at h
            · exact Except.noConfusion h
            · split at h
              · -- service branch
                rename_i hkw
                injection h with hlab
                subst hlab
                refine ⟨fun _ => ?_, fun hh => absurd rfl hh⟩
                have hs1 := indexByte_some ':' l idx heq1
                have hs2 := indexByte_some '=' (l.take idx) idx2 heq2
                rw [← hkw, hs2, hs1]
              · split at h
                · -- host branch
                  rename_i hkw
                  injection h with hlab
                  subst hlab
                  refine ⟨fun hh => absurd rfl hh, fun _ => ?_⟩
                  have hs1 := indexByte_some ':' l idx heq1
                  have hs2 := indexByte_some '=' (l.take idx) idx2 heq2
                  rw [← hkw, hs2, hs1]
                · exact Except.noConfusion h

/-- Labels decoded from distinct label strings never route to each other's
identity key. -/
theorem parseLabel_distinct (l1 l2 : GoStr) (lab1 lab2 : Label)
    (h1 : ParseLabel l1 = .ok lab1) (h2 : ParseLabel l2 = .ok lab2)
    (hne : l1 ≠ l2) : DistinctDest lab1 lab2 := by
  obtain ⟨r1s, r1h⟩ := ParseLabel_reconstruct l1 lab1 h1
  obtain ⟨r2s, r2h⟩ := ParseLabel_reconstruct l2 lab2 h2
  constructor
  · intro hs1 hk
    obtain ⟨hserv, hname⟩ := hk
    apply hne
    rw [r1s hs1, r2s (by rw [← hserv]; exact hs1), hserv, hname]
  · intro _ hh1 hk
    obtain ⟨hhost, hname⟩ := hk
    apply hne
    rw [r1h hh1, r2h (by rw [← hhost]; exact hh1), hhost, hname]

/-- Parsing a rendered service label recovers the service and metric name,
provided the service name contains no colon. -/
theorem parseLabel_render_service (S M : GoStr) (hS : S ≠ []) (hc : ':' ∉ S) :
    ParseLabel ((serviceKw ++ '=' :: S) ++ ':' :: M) = .ok ⟨S, [], M⟩ := by
  have hpre : ':' ∉ serviceKw ++ '=' :: S := by
    intro hm
    rcases List.mem_append.mp hm with h1 | h1
    · exact absurd h1 (by decide)
    · rcases List.mem_cons.mp h1 with h2 | h2
      · exact absurd h2 (by decide)
      · exact hc h2
  have hSlen : 1 ≤ S.length := List.length_pos.mpr hS
  have hidx : indexByte ':' ((serviceKw ++ '=' :: S) ++ ':' :: M) =
      some (serviceKw ++ '=' :: S).length := indexByte_split _ _ _ hpre
  have hlen1 : (serviceKw ++ '=' :: S).length = 8 + S.length := by
    simp [serviceKw]
    omega
  have hlen2 : ((serviceKw ++ '=' :: S) ++ ':' :: M).length = 9 + S.length + M.length := by
    simp [serviceKw]
    omega
  have h0 : ¬((serviceKw ++ '=' :: S).length = 0) := by omega
  have hL : ¬((serviceKw ++ '=' :: S).length =
      ((serviceKw ++ '=' :: S) ++ ':' :: M).length) := by omega
  have htake : ((serviceKw ++ '=' :: S) ++ ':' :: M).take (serviceKw ++ '=' :: S).length
      = serviceKw ++ '=' :: S := List.take_left _ _
  have hdrop : ((serviceKw ++ '=' :: S) ++ ':' :: M).drop
      ((serviceKw ++ '=' :: S).length + 1) = M := by
    have he : (serviceKw ++ '=' :: S) ++ ':' :: M = ((serviceKw ++ '=' :: S) ++ [':']) ++ M := by
      simp
    have hl : ((serviceKw ++ '=' :: S) ++ [':']).length = (serviceKw ++ '=' :: S).length + 1 := by
      simp only [List.length_append, List.length_cons, List.length_nil]
    rw [he, ← hl, List.drop_left]
  have hidx2 : indexByte '=' (serviceKw ++ '=' :: S) = some serviceKw.length :=
    indexByte_split _ _ _ (by decide)
  have h70 : ¬(serviceKw.length = 0) := by decide
  have h7L : ¬(serviceKw.length = ((serviceKw ++ '=' :: S) ++ ':' :: M).length) := by
    have : serviceKw.length = 7 := by decide
    omega
  have htake2 : (serviceKw ++ '=' :: S).take serviceKw.length = serviceKw :=
    List.take_left _ _
  have hdrop2 : (serviceKw ++ '=' :: S).drop (serviceKw.length + 1) = S := by
    have he : serviceKw ++ '=' :: S = (serviceKw ++ ['=']) ++ S := by simp
    have hl : (serviceKw ++ ['=']).length = serviceKw.length + 1 := by simp
    rw [he, ← hl, List.drop_left]
  simp only [ParseLabel, hidx, if_neg h0, if_neg hL, htake, hdrop, hidx2,
    if_neg h70, if_neg h7L, htake2, hdrop2, if_pos rfl, if_true]

/-- Parsing a rendered host label recovers the host id and metric name,
provided the host id contains no colon. -/
theorem parseLabel_render_host (H M : GoStr) (hH : H ≠ []) (hc : ':' ∉ H) :
    ParseLabel ((hostKw ++ '=' :: H) ++ ':' :: M) = .ok ⟨[], H, M⟩ := by
  have hpre : ':' ∉ hostKw ++ '=' :: H := by
    intro hm
    rcases List.mem_append.mp hm with h1 | h1
    · exact absurd h1 (by decide)
    · rcases List.mem_cons.mp h1 with h2 | h2
      · exact absurd h2 (by decide)
      · exact hc h2
  have hHlen : 1 ≤ H.length := List.length_pos.mpr hH
  have hidx : indexByte ':' ((hostKw ++ '=' :: H) ++ ':' :: M) =
      some (hostKw ++ '=' :: H).length := indexByte_split _ _ _ hpre
  have hlen1 : (hostKw ++ '=' :: H).length = 5 + H.length := by
    simp [hostKw]
    omega
  have hlen2 : ((hostKw ++ '=' :: H) ++ ':' :: M).length = 6 + H.length + M.length := by
    simp [hostKw]
    omega
  have h0 : ¬((hostKw ++ '=' :: H).length = 0) := by omega
  have hL : ¬((hostKw ++ '=' :: H).length =
      ((hostKw ++ '=' :: H) ++ ':' :: M).length) := by omega
  have htake : ((hostKw ++ '=' :: H) ++ ':' :: M).take (hostKw ++ '=' :: H).length
      = hostKw ++ '=' :: H := List.take_left _ _
  have hdrop : ((hostKw ++ '=' :: H) ++ ':' :: M).drop
      ((hostKw ++ '=' :: H).length + 1) = M := by
    have he : (hostKw ++ '=' :: H) ++ ':' :: M = ((hostKw ++ '=' :: H) ++ [':']) ++ M := by
      simp
    have hl : ((hostKw ++ '=' :: H) ++ [':']).length = (hostKw ++ '=' :: H).length + 1 := by
      simp only [List.length_append, List.length_cons, List.length_nil]
    rw [he, ← hl, List.drop_left]
  have hidx2 : indexByte '=' (hostKw ++ '=' :: H) = some hostKw.length :=
    indexByte_split _ _ _ (by decide)
  have h40 : ¬(hostKw.length = 0) := by decide
  have h4L : ¬(hostKw.length = ((hostKw ++ '=' :: H) ++ ':' :: M).length) := by
    have : hostKw.length = 4 := by decide
    omega
  have htake2 : (hostKw ++ '=' :: H).take hostKw.length = hostKw :=
    List.take_left _ _
  have hdrop2 : (hostKw ++ '=' :: H).drop (hostKw.length + 1) = H := by
    have he : hostKw ++ '=' :: H = (hostKw ++ ['=']) ++ H := by simp
    have hl : (hostKw ++ ['=']).length = hostKw.length + 1 := by simp
    rw [he, ← hl, List.drop_left]
  have hks : ¬(hostKw = serviceKw) := by decide
  simp only [ParseLabel, hidx, if_neg h0, if_neg hL, htake, hdrop, hidx2,
    if_neg h40, if_neg h4L, htake2, hdrop2, if_neg hks, if_pos rfl, if_true]

/-- C1 is violated when the service or host id contains a `:` (the decoder
splits at the first colon): the valid label (service `a:b`, metric `m`)
does not survive the round trip. -/
theorem label_roundtrip_counterexample :
    ((lblColonService.service ≠ [] ∧ lblColonService.hostID = []) ∨
     (lblColonService.service = [] ∧ lblColonService.hostID ≠ [])) ∧
    lblColonService.metricName ≠ [] ∧
    ParseLabel (Label.String lblColonService) ≠ .ok lblColonService := by
  refine ⟨by decide, by decide, fun h => ?_⟩
  have hred : ParseLabel (Label.String lblColonService) =
      .ok ⟨['a'], [], ['b', ':', 'm']⟩ := rfl
  rw [hred] at h
  exact absurd (Except.ok.inj h) (by decide)

/-- C1 amended: every valid label (exactly one of service/host id non-empty,
non-empty metric name) whose service and host id contain no `:` character is
decoded back from its encoded string unchanged. -/
theorem label_roundtrip (l : Label)
    (hvalid : (l.service ≠ [] ∧ l.hostID = []) ∨ (l.service = [] ∧ l.hostID ≠ []))
    (hname : l.metricName ≠ [])
    (hsc : ':' ∉ l.service) (hhc : ':' ∉ l.hostID) :
    ParseLabel (Label.String l) = .ok l := by
  obtain ⟨s, hid, m⟩ := l
  rcases hvalid with ⟨hs, hh⟩ | ⟨hs, hh⟩
  · simp only at hs hh hsc
    subst hh
    have hrender : Label.String ⟨s, [], m⟩ = (serviceKw ++ '=' :: s) ++ ':' :: m := by
      simp [Label.String, hs]
    rw [hrender, parseLabel_render_service s m hs hsc]
  · simp only at hs hh hhc
    subst hs
    have hrender : Label.String ⟨[], hid, m⟩ = (hostKw ++ '=' :: hid) ++ ':' :: m := by
      simp [Label.String, hh]
    rw [hrender, parseLabel_render_host hid m hh hhc]

/-- Witness for the amended C1 at the label (service `prod`, metric `foo`). -/
theorem label_roundtrip_witness :
    ParseLabel (Label.String ⟨['p', 'r', 'o', 'd'], [], ['f', 'o', 'o']⟩) =
      .ok ⟨['p', 'r', 'o', 'd'], [], ['f', 'o', 'o']⟩ :=
  label_roundtrip ⟨['p', 'r', 'o', 'd'], [], ['f', 'o', 'o']⟩
    (Or.inl (by decide)) (by decide) (by decide) (by decide)

/-- `smAppendList` with an existing key overwrites the first matching entry
in place. -/
theorem smAppendList_match (ms : List ServiceMetricValue) (v : ServiceMetricValue)
    (h : ms.any (smKey v.name v.time) = true) :
    smAppendList ms v = ms.set (ms.findIdx (smKey v.name v.time)) v := by
  induction ms with
  | nil => simp at h
  | cons m rest ih =>
    by_cases hc : m.name = v.name ∧ m.time = v.time
    · simp [smAppendList, hc, List.findIdx_cons, smKey]
    · have hkm : smKey v.name v.time m = false := by simp [smKey, hc]
      simp only [List.any_cons, hkm, Bool.false_or] at h
      simp [smAppendList, hc, List.findIdx_cons, hkm, ih h]

/-- `smAppendList` with a fresh key appends the new value at the end. -/
theorem smAppendList_no_match (ms : List ServiceMetricValue) (v : ServiceMetricValue)
    (h : ms.any (smKey v.name v.time) = false) :
    smAppendList ms v = ms ++ [v] := by
  induction ms with
  | nil => simp [smAppendList]
  | cons m rest ih =>
    simp only [List.any_cons, Bool.or_eq_false_iff] at h
    have hc : ¬(m.name = v.name ∧ m.time = v.time) := by
      have := h.1
      simp [smKey] at this
      tauto
    simp [smAppendList, hc, ih h.2]

/-- After `smAppendList`, the appended value is the only entry under its
own key (provided the key held at most one entry before). -/
theorem smAppendList_filter_self (ms : List ServiceMetricValue) (v : ServiceMetricValue)
    (h : (ms.filter (smKey v.name v.time)).length ≤ 1) :
    (smAppendList ms v).filter (smKey v.name v.time) = [v] := by
  induction ms with
  | nil => simp [smAppendList, List.filter, smKey]
  | cons m rest ih =>
    by_cases hc : m.name = v.name ∧ m.time = v.time
    · have hkm : smKey v.name v.time m = true := by simp [smKey, hc]
      have hrest : rest.filter (smKey v.name v.time) = [] := by
        simp only [List.filter_cons, hkm, if_pos] at h
        simp only [List.length_cons] at h
        exact List.length_eq_zero.mp (by omega)
      simp [smAppendList, hc, List.filter_cons, smKey, hrest]
    · have hkm : smKey v.name v.time m = false := by simp [smKey, hc]
      simp only [List.filter_cons, hkm] at h
      simp [smAppendList, hc, List.filter_cons, hkm, ih (by simpa using h)]

/-- `smAppendList` leaves every other key's entries unchanged. -/
theorem smAppendList_filter_other (ms : List ServiceMetricValue)
    (v : ServiceMetricValue) (n : GoStr) (t : Int)
    (hne : ¬(v.name = n ∧ v.time = t)) :
    (smAppendList ms v).filter (smKey n t) = ms.filter (smKey n t) := by
  have hkv : smKey n t v = false := by
    simp only [smKey, decide_eq_false_iff_not]
    exact hne
  induction ms with
  | nil => simp [smAppendList, List.filter, hkv]
  | cons m rest ih =>
    by_cases hc : m.name = v.name ∧ m.time = v.time
    · have hkm : smKey n t m = false := by
        simp [smKey]
        intro h1 h2
        exact absurd ⟨hc.1.symm.trans h1, hc.2.symm.trans h2⟩ hne
      simp [smAppendList, hc, List.filter_cons, hkm, hkv]
    · simp [smAppendList, hc, List.filter_cons, ih]

/-- `hostMetricsType.Append` with an existing key overwrites the first
matching entry in place. -/
theorem hmAppend_match (hm : hostMetricsType) (v : HostMetricValue)
    (h : hm.any (hmKey v.hostID v.name v.time) = true) :
    hm.Append v = hm.set (hm.findIdx (hmKey v.hostID v.name v.time)) v := by
  induction hm with
  | nil => simp at h
  | cons m rest ih =>
    by_cases hc : m.hostID = v.hostID ∧ m.name = v.name ∧ m.time = v.time
    · simp [hostMetricsType.Append, hc, List.findIdx_cons, hmKey]
    · have hkm : hmKey v.hostID v.name v.time m = false := by
        simp only [hmKey, decide_eq_false_iff_not]
        exact hc
      simp only [List.any_cons, hkm, Bool.false_or] at h
      simp [hostMetricsType.Append, hc, List.findIdx_cons, hkm, ih h]

/-- `hostMetricsType.Append` with a fresh key appends the new value at the
end. -/
theorem hmAppend_no_match (hm : hostMetricsType) (v : HostMetricValue)
    (h : hm.any (hmKey v.hostID v.name v.time) = false) :
    hm.Append v = hm ++ [v] := by
  induction hm with
  | nil => simp [hostMetricsType.Append]
  | cons m rest ih =>
    simp only [List.any_cons, Bool.or_eq_false_iff] at h
    have hc : ¬(m.hostID = v.hostID ∧ m.name = v.name ∧ m.time = v.time) := by
      have := h.1
      simp [hmKey] at this
      tauto
    simp [hostMetricsType.Append, hc, ih h.2]

/-- After `hostMetricsType.Append`, the appended value is the only entry
under its own key (provided the key held at most one entry before). -/
theorem hmAppend_filter_self (hm : hostMetricsType) (v : HostMetricValue)
    (h : (hm.filter (hmKey v.hostID v.name v.time)).length ≤ 1) :
    (hm.Append v).filter (hmKey v.hostID v.name v.time) = [v] := by
  induction hm with
  | nil => simp [hostMetricsType.Append, List.filter, hmKey]
  | cons m rest ih =>
    by_cases hc : m.hostID = v.hostID ∧ m.name = v.name ∧ m.time = v.time
    · have hkm : hmKey v.hostID v.name v.time m = true := by simp [hmKey, hc]
      have hrest : rest.filter (hmKey v.hostID v.name v.time) = [] := by
        simp only [List.filter_cons, hkm, if_pos] at h
        simp only [List.length_cons] at h
        exact List.length_eq_zero.mp (by omega)
      simp [hostMetricsType.Append, hc, List.filter_cons, hmKey, hrest]
    · have hkm : hmKey v.hostID v.name v.time m = false := by
        simp only [hmKey, decide_eq_false_iff_not]
        exact hc
      simp only [List.filter_cons, hkm] at h
      simp [hostMetricsType.Append, hc, List.filter_cons, hkm, ih (by simpa using h)]

/-- `hostMetricsType.Append` leaves every other key's entries unchanged. -/
theorem hmAppend_filter_other (hm : hostMetricsType) (v : HostMetricValue)
    (hid n : GoStr) (t : Int)
    (hne : ¬(v.hostID = hid ∧ v.name = n ∧ v.time = t)) :
    (hm.Append v).filter (hmKey hid n t) = hm.filter (hmKey hid n t) := by
  have hkv : hmKey hid n t v = false := by
    simp only [hmKey, decide_eq_false_iff_not]
    exact hne
  induction hm with
  | nil => simp [hostMetricsType.Append, List.filter, hkv]
  | cons m rest ih =>
    by_cases hc : m.hostID = v.hostID ∧ m.name = v.name ∧ m.time = v.time
    · have hkm : hmKey hid n t m = false := by
        simp [hmKey]
        intro h1 h2 h3
        exact absurd ⟨hc.1.symm.trans h1, hc.2.1.symm.trans h2, hc.2.2.symm.trans h3⟩ hne
      simp [hostMetricsType.Append, hc, List.filter_cons, hkm, hkv]
    · simp [hostMetricsType.Append, hc, List.filter_cons, ih]

/-- Reading back the stored service returns the stored list. -/
theorem smLookup_smStore_self (sm : serviceMetricsType) (s : GoStr)
    (ms : List ServiceMetricValue) : smLookup (smStore sm s ms) s = ms := by
  induction sm with
  | nil => simp [smStore, smLookup]
  | cons p rest ih =>
    by_cases hc : p.1 = s
    · simp [smStore, smLookup, hc]
    · simp [smStore, smLookup, hc, ih]

/-- Storing one service leaves every other service's list unchanged. -/
theorem smLookup_smStore_other (sm : serviceMetricsType) (s : GoStr)
    (ms : List ServiceMetricValue) (s2 : GoStr) (h : s2 ≠ s) :
    smLookup (smStore sm s ms) s2 = smLookup sm s2 := by
  induction sm with
  | nil =>
    have hne : ¬(s = s2) := fun he => h he.symm
    simp [smStore, smLookup, hne]
  | cons p rest ih =>
    by_cases hc : p.1 = s
    · have hne : ¬(s = s2) := fun he => h he.symm
      simp [smStore, smLookup, hc, hne]
    · by_cases hc2 : p.1 = s2
      · simp [smStore, smLookup, hc, hc2, h]
      · simp [smStore, smLookup, hc, hc2, ih]

/-- The per-service list seen through `serviceMetricsType.Append`. -/
theorem smLookup_append (sm : serviceMetricsType) (s : GoStr)
    (v : ServiceMetricValue) (s2 : GoStr) :
    smLookup (sm.Append s v) s2 =
      if s2 = s then smAppendList (smLookup sm s) v else smLookup sm s2 := by
  by_cases hc : s2 = s
  · subst hc
    simp [serviceMetricsType.Append, smLookup_smStore_self]
  · simp [serviceMetricsType.Append, hc, smLookup_smStore_other sm s _ s2 hc]

/-- C4: the pending collections keep at most one entry per identity key.
If an entry with the appended value's (destination, name, timestamp) key
already exists, `Append` overwrites the first such entry in place and the
collection size is unchanged; otherwise the value is appended.  Other
services' collections are never touched. -/
theorem pending_append_key_semantics (sm : serviceMetricsType) (s : GoStr)
    (v : ServiceMetricValue) (hm : hostMetricsType) (w : HostMetricValue) :
    ((smLookup sm s).any (smKey v.name v.time) = true →
      smLookup (sm.Append s v) s =
        (smLookup sm s).set ((smLookup sm s).findIdx (smKey v.name v.time)) v ∧
      (smLookup (sm.Append s v) s).length = (smLookup sm s).length) ∧
    ((smLookup sm s).any (smKey v.name v.time) = false →
      smLookup (sm.Append s v) s = smLookup sm s ++ [v]) ∧
    (∀ s2, s2 ≠ s → smLookup (sm.Append s v) s2 = smLookup sm s2) ∧
    (hm.any (hmKey w.hostID w.name w.time) = true →
      hm.Append w = hm.set (hm.findIdx (hmKey w.hostID w.name w.time)) w ∧
      (hm.Append w).length = hm.length) ∧
    (hm.any (hmKey w.hostID w.name w.time) = false →
      hm.Append w = hm ++ [w]) := by
  refine ⟨fun h => ?_, fun h => ?_, fun s2 h => ?_, fun h => ?_, fun h => ?_⟩
  · rw [smLookup_append, if_pos rfl, smAppendList_match _ _ h]
    simp
  · rw [smLookup_append, if_pos rfl, smAppendList_no_match _ _ h]
  · rw [smLookup_append, if_neg h]
  · rw [hmAppend_match _ _ h]
    simp
  · exact hmAppend_no_match _ _ h

/-- Witness for C4: a two-entry service collection where the appended value
overwrites the matching entry in place, and a host append under a fresh key. -/
theorem pending_append_key_semantics_witness :
    smLookup ((staleServicePending).Append ['s'] ⟨['n'], 0, 7⟩) ['s'] =
      [⟨['n'], 0, 7⟩] ∧
    (staleHostPending).Append ⟨['h'], ['n'], 5, 2⟩ =
      staleHostPending ++ [⟨['h'], ['n'], 5, 2⟩] := by
  have h := pending_append_key_semantics staleServicePending ['s'] ⟨['n'], 0, 7⟩
    staleHostPending ⟨['h'], ['n'], 5, 2⟩
  refine ⟨?_, h.2.2.2.2 (by decide)⟩
  have h1 := (h.1 (by decide)).1
  rw [h1]
  decide

/-- C9 is violated by the code: the expiry phase of `forwardMetrics` calls
`Drop` on the pending host metrics only, so a pending service-metric entry
strictly older than the 6-hour threshold survives the phase untouched —
although `serviceMetricsType.Drop` (never called by the code) would have
removed it, counted it, and deleted the emptied per-service entry. -/
theorem forwardDropPhase_keeps_stale_service_metrics :
    forwardDropPhase staleServicePending staleHostPending 100000 =
      (staleServicePending, [], 1) ∧
    serviceMetricsType.Drop staleServicePending 78400 = ([], 1) :=
  ⟨rfl, rfl⟩

/-- `serviceMetricsType.Append` preserves at-most-one-entry-per-key. -/
theorem SMOk_append (sm : serviceMetricsType) (s : GoStr) (v : ServiceMetricValue)
    (h : SMOk sm) : SMOk (sm.Append s v) := by
  intro s2 n t
  rw [smLookup_append]
  by_cases hc : s2 = s
  · rw [if_pos hc]
    by_cases hk : v.name = n ∧ v.time = t
    · obtain ⟨hn, ht⟩ := hk
      subst hn
      subst ht
      rw [smAppendList_filter_self _ _ (h s v.name v.time)]
      simp
    · rw [smAppendList_filter_other _ _ _ _ hk]
      exact h s n t
  · rw [if_neg hc]
    exact h s2 n t

/-- `hostMetricsType.Append` preserves at-most-one-entry-per-key. -/
theorem HMOk_append (hm : hostMetricsType) (v : HostMetricValue)
    (h : HMOk hm) : HMOk (hm.Append v) := by
  intro hid n t
  by_cases hk : v.hostID = hid ∧ v.name = n ∧ v.time = t
  · obtain ⟨h1, h2, h3⟩ := hk
    subst h1
    subst h2
    subst h3
    rw [hmAppend_filter_self _ _ (h v.hostID v.name v.time)]
    simp
  · rw [hmAppend_filter_other _ _ _ _ _ hk]
    exact h hid n t

/-- `appendPoint` preserves both invariants. -/
theorem appendPoint_ok (lab : Label) (t : Int) (v : Val) (acc : MetricsAcc)
    (hs : SMOk acc.1) (hh : HMOk acc.2) :
    SMOk (appendPoint lab t v acc).1 ∧ HMOk (appendPoint lab t v acc).2 := by
  unfold appendPoint
  by_cases h1 : lab.service ≠ []
  · rw [if_pos h1]
    exact ⟨SMOk_append _ _ _ hs, hh⟩
  · rw [if_neg h1]
    by_cases h2 : lab.hostID ≠ []
    · rw [if_pos h2]
      exact ⟨hs, HMOk_append _ _ hh⟩
    · rw [if_neg h2]
      exact ⟨hs, hh⟩

/-- `appendPoints` preserves both invariants. -/
theorem appendPoints_ok (lab : Label) :
    ∀ (ps : List (Int × Val)) (acc : MetricsAcc),
      SMOk acc.1 → HMOk acc.2 →
      SMOk (appendPoints lab ps acc).1 ∧ HMOk (appendPoints lab ps acc).2 := by
  intro ps
  induction ps with
  | nil => intro acc hs hh; exact ⟨hs, hh⟩
  | cons p rest ih =>
    intro acc hs hh
    obtain ⟨hs1, hh1⟩ := appendPoint_ok lab p.1 p.2 acc hs hh
    exact ih _ hs1 hh1

/-- `processResult` preserves both invariants. -/
theorem processResult_ok (acc : MetricsAcc) (seen : List GoStr)
    (r : MetricDataResult) (acc1 : MetricsAcc) (seen1 : List GoStr)
    (h : processResult acc seen r = .ok (acc1, seen1))
    (hs : SMOk acc.1) (hh : HMOk acc.2) : SMOk acc1.1 ∧ HMOk acc1.2 := by
  unfold processResult at h
  cases hp : ParseLabel r.label with
  | error e =>
    rw [hp] at h
    exact Except.noConfusion h
  | ok lab =>
    rw [hp] at h
    injection h with h1
    injection h1 with h2 h3
    subst h2
    exact appendPoints_ok lab _ acc hs hh

/-- The seen list produced by `processResult`. -/
theorem processResult_seen (acc : MetricsAcc) (seen : List GoStr)
    (r : MetricDataResult) (acc1 : MetricsAcc) (seen1 : List GoStr)
    (h : processResult acc seen r = .ok (acc1, seen1)) :
    seen1 = (if r.values ≠ [] then [r.label] else []) ++ seen := by
  unfold processResult at h
  cases hp : ParseLabel r.label with
  | error e =>
    rw [hp] at h
    exact Except.noConfusion h
  | ok lab =>
    rw [hp] at h
    injection h with h1
    injection h1 with h2 h3
    subst h3
    by_cases hv : r.values ≠ []
    · simp [hv]
    · simp [hv]

/-- `processRows` preserves both invariants. -/
theorem processRows_ok :
    ∀ (rows : List MetricDataResult) (acc : MetricsAcc) (seen : List GoStr)
      (acc1 : MetricsAcc) (seen1 : List GoStr),
      processRows acc seen rows = .ok (acc1, seen1) →
      SMOk acc.1 → HMOk acc.2 → SMOk acc1.1 ∧ HMOk acc1.2 := by
  intro rows
  induction rows with
  | nil =>
    intro acc seen acc1 seen1 h hs hh
    unfold processRows at h
    injection h with h1
    injection h1 with h2 h3
    subst h2
    exact ⟨hs, hh⟩
  | cons r rest ih =>
    intro acc seen acc1 seen1 h hs hh
    unfold processRows at h
    cases hr : processResult acc seen r with
    | error e =>
      rw [hr] at h
      exact Except.noConfusion h
    | ok p =>
      rw [hr] at h
      obtain ⟨hs1, hh1⟩ := processResult_ok acc seen r p.1 p.2 (by rw [hr]) hs hh
      exact ih p.1 p.2 acc1 seen1 h hs1 hh1

/-- The seen list produced by `processRows`: the labels of the page's
non-empty rows (latest first) in front of the incoming list. -/
theorem processRows_seen :
    ∀ (rows : List MetricDataResult) (acc : MetricsAcc) (seen : List GoStr)
      (acc1 : MetricsAcc) (seen1 : List GoStr),
      processRows acc seen rows = .ok (acc1, seen1) →
      seen1 = (rowsSeen rows).reverse ++ seen := by
  intro rows
  induction rows with
  | nil =>
    intro acc seen acc1 seen1 h
    unfold processRows at h
    injection h with h1
    injection h1 with h2 h3
    subst h3
    simp [rowsSeen]
  | cons r rest ih =>
    intro acc seen acc1 seen1 h
    unfold processRows at h
    cases hr : processResult acc seen r with
    | error e =>
      rw [hr] at h
      exact Except.noConfusion h
    | ok p =>
      rw [hr] at h
      have hseen := processResult_seen acc seen r p.1 p.2 (by rw [hr])
      have hrest := ih p.1 p.2 acc1 seen1 h
      rw [hrest, hseen]
      by_cases hv : r.values ≠ []
      · simp [rowsSeen, List.filter_cons, hv]
      · simp [rowsSeen, List.filter_cons, hv]

/-- `processPages` preserves both invariants. -/
theorem processPages_ok :
    ∀ (pages : List (List MetricDataResult)) (acc : MetricsAcc) (seen : List GoStr)
      (acc1 : MetricsAcc) (seen1 : List GoStr),
      processPages acc seen pages = .ok (acc1, seen1) →
      SMOk acc.1 → HMOk acc.2 → SMOk acc1.1 ∧ HMOk acc1.2 := by
  intro pages
  induction pages with
  | nil =>
    intro acc seen acc1 seen1 h hs hh
    unfold processPages at h
    injection h with h1
    injection h1 with h2 h3
    subst h2
    exact ⟨hs, hh⟩
  | cons page rest ih =>
    intro acc seen acc1 seen1 h hs hh
    unfold processPages at h
    cases hr : processRows acc seen page with
    | error e =>
      rw [hr] at h
      exact Except.noConfusion h
    | ok p =>
      rw [hr] at h
      obtain ⟨hs1, hh1⟩ := processRows_ok page acc seen p.1 p.2 (by rw [hr]) hs hh
      exact ih p.1 p.2 acc1 seen1 h hs1 hh1

/-- Membership in the seen list after all pages: the incoming list plus the
labels with a non-empty row somewhere in the pages. -/
theorem processPages_seen :
    ∀ (pages : List (List MetricDataResult)) (acc : MetricsAcc) (seen : List GoStr)
      (acc1 : MetricsAcc) (seen1 : List GoStr),
      processPages acc seen pages = .ok (acc1, seen1) →
      ∀ l, l ∈ seen1 ↔ l ∈ seen ∨ l ∈ seenLabels pages := by
  intro pages
  induction pages with
  | nil =>
    intro acc seen acc1 seen1 h l
    unfold processPages at h
    injection h with h1
    injection h1 with h2 h3
    subst h3
    simp [seenLabels]
  | cons page rest ih =>
    intro acc seen acc1 seen1 h l
    unfold processPages at h
    cases hr : processRows acc seen page with
    | error e =>
      rw [hr] at h
      exact Except.noConfusion h
    | ok p =>
      rw [hr] at h
      have hseen := processRows_seen page acc seen p.1 p.2 (by rw [hr])
      have hrest := ih p.1 p.2 acc1 seen1 h l
      have hsplit : seenLabels (page :: rest) = rowsSeen page ++ seenLabels rest := by
        simp [seenLabels, rowsSeen, List.filter_append, List.map_append]
      rw [hrest, hseen, hsplit]
      simp [List.mem_append]
      tauto

/-- Synthesizing a default for a label routed to a different destination
leaves the observed key's entries unchanged (both collections). -/
theorem applyDefault1_obs (lab2 lab : Label) (v2 : Val) (t2 t : Int)
    (acc : MetricsAcc) (hd : DistinctDest lab2 lab) :
    svcObs (applyDefault1 lab2 v2 t2 acc) lab.service lab.metricName t =
      svcObs acc lab.service lab.metricName t ∧
    hostObs (applyDefault1 lab2 v2 t2 acc) lab.hostID lab.metricName t =
      hostObs acc lab.hostID lab.metricName t := by
  unfold applyDefault1 appendPoint
  by_cases h1 : lab2.service ≠ []
  · rw [if_pos h1]
    constructor
    · unfold svcObs
      rw [smLookup_append]
      by_cases h2 : lab.service = lab2.service
      · rw [if_pos h2]
        rw [smAppendList_filter_other]
        · rw [h2]
        · intro hk
          exact hd.1 h1 ⟨h2.symm, hk.1⟩
      · rw [if_neg h2]
    · rfl
  · rw [if_neg h1]
    by_cases h2 : lab2.hostID ≠ []
    · rw [if_pos h2]
      constructor
      · rfl
      · unfold hostObs
        rw [hmAppend_filter_other]
        intro hk
        exact hd.2 (not_not.mp h1) h2 ⟨hk.1, hk.2.1⟩
    · rw [if_neg h2]
      exact ⟨rfl, rfl⟩

/-- A defaults run over labels all routed to other destinations leaves the
observed key's entries unchanged. -/
theorem applyDefaults_obs (seen : List GoStr) (startT : Int) (lab : Label) (t : Int) :
    ∀ (ds : List (GoStr × Val)) (acc acc1 : MetricsAcc),
      applyDefaults seen startT ds acc = .ok acc1 →
      (∀ p ∈ ds, ∀ lab2, ParseLabel p.1 = .ok lab2 → DistinctDest lab2 lab) →
      svcObs acc1 lab.service lab.metricName t =
        svcObs acc lab.service lab.metricName t ∧
      hostObs acc1 lab.hostID lab.metricName t =
        hostObs acc lab.hostID lab.metricName t := by
  intro ds
  induction ds with
  | nil =>
    intro acc acc1 h hd
    unfold applyDefaults at h
    injection h with h1
    subst h1
    exact ⟨rfl, rfl⟩
  | cons p rest ih =>
    intro acc acc1 h hd
    obtain ⟨l2, v2⟩ := p
    unfold applyDefaults at h
    by_cases hsn : l2 ∈ seen
    · rw [if_pos hsn] at h
      exact ih acc acc1 h (fun p2 hp2 => hd p2 (List.mem_cons_of_mem _ hp2))
    · rw [if_neg hsn] at h
      cases hp : ParseLabel l2 with
      | error e =>
        rw [hp] at h
        exact Except.noConfusion h
      | ok lab2 =>
        rw [hp] at h
        have hd2 : DistinctDest lab2 lab := hd (l2, v2) (List.mem_cons_self _ _) lab2 hp
        have hstep := applyDefault1_obs lab2 lab v2 startT t acc hd2
        have hrest := ih _ acc1 h (fun p2 hp2 => hd p2 (List.mem_cons_of_mem _ hp2))
        exact ⟨hrest.1.trans hstep.1, hrest.2.trans hstep.2⟩

/-- Defaults whose labels were seen contribute nothing: the run equals the
run over the unseen defaults only. -/
theorem applyDefaults_skips_seen (seen : List GoStr) (startT : Int) :
    ∀ (ds : List (GoStr × Val)) (acc : MetricsAcc),
      applyDefaults seen startT ds acc =
        applyDefaults seen startT (ds.filter (fun p => decide (p.1 ∉ seen))) acc := by
  intro ds
  induction ds with
  | nil => intro acc; rfl
  | cons p rest ih =>
    intro acc
    obtain ⟨l2, v2⟩ := p
    by_cases hsn : l2 ∈ seen
    · rw [show ((l2, v2) :: rest).filter (fun p => decide (p.1 ∉ seen)) =
          rest.filter (fun p => decide (p.1 ∉ seen)) from by
        simp [List.filter_cons, hsn]]
      conv_lhs => rw [applyDefaults]
      rw [if_pos hsn]
      exact ih acc
    · rw [show ((l2, v2) :: rest).filter (fun p => decide (p.1 ∉ seen)) =
          (l2, v2) :: rest.filter (fun p => decide (p.1 ∉ seen)) from by
        simp [List.filter_cons, hsn]]
      unfold applyDefaults
      rw [if_neg hsn, if_neg hsn]
      cases hp : ParseLabel l2 with
      | error e => rfl
      | ok lab2 => exact ih _

/-- The defaults loop synthesizes exactly one value for an unseen defaulted
label: afterwards its destination holds exactly one entry under the
(metric name, window start) key — the default value. -/
theorem applyDefaults_synthesize (seen : List GoStr) (startT : Int)
    (l : GoStr) (v : Val) (lab : Label)
    (hlab : ParseLabel l = .ok lab) (hseen : l ∉ seen) :
    ∀ (ds : List (GoStr × Val)) (acc acc1 : MetricsAcc),
      applyDefaults seen startT ds acc = .ok acc1 →
      (l, v) ∈ ds →
      (ds.map Prod.fst).Nodup →
      (svcObs acc lab.service lab.metricName startT).length ≤ 1 →
      (hostObs acc lab.hostID lab.metricName startT).length ≤ 1 →
      (lab.service ≠ [] →
        svcObs acc1 lab.service lab.metricName startT = [⟨lab.metricName, startT, v⟩]) ∧
      (lab.service = [] → lab.hostID ≠ [] →
        hostObs acc1 lab.hostID lab.metricName startT =
          [⟨lab.hostID, lab.metricName, startT, v⟩]) := by
  intro ds
  induction ds with
  | nil =>
    intro acc acc1 h hmem
    exact absurd hmem (List.not_mem_nil _)
  | cons p rest ih =>
    intro acc acc1 h hmem hnodup hsvc hhost
    obtain ⟨l2, v2⟩ := p
    rcases List.mem_cons.mp hmem with heq | hmem2
    · -- the head is our default
      injection heq with hl2 hv2
      subst hl2
      subst hv2
      unfold applyDefaults at h
      rw [if_neg hseen, hlab] at h
      have hnotin : ∀ p2 ∈ rest, p2.1 ≠ l := by
        intro p2 hp2 he
        have hmm : l ∈ rest.map Prod.fst := he ▸ List.mem_map_of_mem Prod.fst hp2
        exact (List.nodup_cons.mp hnodup).1 hmm
      have hdrest : ∀ p2 ∈ rest, ∀ lab2, ParseLabel p2.1 = .ok lab2 → DistinctDest lab2 lab :=
        fun p2 hp2 lab2 hp =>
          parseLabel_distinct p2.1 l lab2 lab hp hlab (hnotin p2 hp2)
      have hobs := applyDefaults_obs seen startT lab startT rest _ acc1 h hdrest
      constructor
      · intro hserv
        rw [hobs.1]
        unfold applyDefault1 appendPoint
        rw [if_pos hserv]
        unfold svcObs
        rw [smLookup_append, if_pos rfl]
        exact smAppendList_filter_self (smLookup acc.1 lab.service)
          ⟨lab.metricName, startT, v⟩ (by exact hsvc)
      · intro hserv hhid
        rw [hobs.2]
        unfold applyDefault1 appendPoint
        rw [if_neg (by simp [hserv]), if_pos hhid]
        unfold hostObs
        exact hmAppend_filter_self acc.2
          ⟨lab.hostID, lab.metricName, startT, v⟩ (by exact hhost)
    · -- the head is a different default
      have hne : l2 ≠ l := by
        intro he
        subst he
        have hmm : l2 ∈ rest.map Prod.fst := List.mem_map_of_mem Prod.fst hmem2
        exact (List.nodup_cons.mp hnodup).1 hmm
      have htl : (rest.map Prod.fst).Nodup := (List.nodup_cons.mp hnodup).2
      unfold applyDefaults at h
      by_cases hsn : l2 ∈ seen
      · rw [if_pos hsn] at h
        exact ih acc acc1 h hmem2 htl hsvc hhost
      · rw [if_neg hsn] at h
        cases hp : ParseLabel l2 with
        | error e =>
          rw [hp] at h
          exact Except.noConfusion h
        | ok lab2 =>
          rw [hp] at h
          have hd2 : DistinctDest lab2 lab :=
            parseLabel_distinct l2 l lab2 lab hp hlab hne
          have hstep := applyDefault1_obs lab2 lab v2 startT startT acc hd2
          refine ih _ acc1 h hmem2 htl ?_ ?_
          · rw [hstep.1]
            exact hsvc
          · rw [hstep.2]
            exact hhost

/-- C3: for every extraction run over a batch whose defaults map registers a
default `v` for label `l`, if `l` produced no non-empty result row across
all pages, the run synthesizes exactly one metric value for `l`'s
destination — keyed by its metric name at the window-start timestamp and
carrying `v`; and defaults whose labels produced a non-empty row contribute
nothing (the defaults loop equals its restriction to unseen labels).  The
only hypotheses beyond the run itself mirror the defaults map (one entry per
label string, as in any Go map) and the collections' starting state (at most
one entry per identity key, the invariant `Append` maintains); distinctness
of the other defaults' destinations is derived from the distinctness of
their label strings. -/
theorem getMetricsData_applies_defaults
    (pages : List (List MetricDataResult)) (defaults : List (GoStr × Val))
    (startT : Int) (acc acc2 : MetricsAcc) (l : GoStr) (v : Val) (lab : Label)
    (hrun : getMetricsData pages defaults startT acc = .ok acc2)
    (hmem : (l, v) ∈ defaults)
    (hnodup : (defaults.map Prod.fst).Nodup)
    (hlab : ParseLabel l = .ok lab)
    (hunseen : l ∉ seenLabels pages)
    (hsm : SMOk acc.1) (hhm : HMOk acc.2) :
    ((lab.service ≠ [] →
        svcObs acc2 lab.service lab.metricName startT = [⟨lab.metricName, startT, v⟩]) ∧
     (lab.service = [] → lab.hostID ≠ [] →
        hostObs acc2 lab.hostID lab.metricName startT =
          [⟨lab.hostID, lab.metricName, startT, v⟩])) ∧
    (∀ (seen2 : List GoStr) (ds : List (GoStr × Val)) (acc3 : MetricsAcc),
        applyDefaults seen2 startT ds acc3 =
          applyDefaults seen2 startT (ds.filter (fun p => decide (p.1 ∉ seen2))) acc3) := by
  refine ⟨?_, fun seen2 ds acc3 => applyDefaults_skips_seen seen2 startT ds acc3⟩
  unfold getMetricsData at hrun
  cases hpp : processPages acc [] pages with
  | error e =>
    rw [hpp] at hrun
    exact Except.noConfusion hrun
  | ok p =>
    rw [hpp] at hrun
    obtain ⟨acc1, seen⟩ := p
    have hseenmem := processPages_seen pages acc [] acc1 seen hpp
    have hseen : l ∉ seen := by
      intro hin
      rcases (hseenmem l).mp hin with h0 | h0
      · exact List.not_mem_nil l h0
      · exact hunseen h0
    obtain ⟨hs1, hh1⟩ := processPages_ok pages acc [] acc1 seen hpp hsm hhm
    exact applyDefaults_synthesize seen startT l v lab hlab hseen defaults acc1 acc2
      hrun hmem hnodup (hs1 lab.service lab.metricName startT)
      (hh1 lab.hostID lab.metricName startT)

/-- Witness for C3: zero pages, the single default `(service=s:n, 5)`, window
start 77 — the run synthesizes exactly the entry (n, 77, 5) for service s. -/
theorem getMetricsData_applies_defaults_witness :
    ((['s'] : GoStr) ≠ [] →
      svcObs c3Acc ['s'] ['n'] 77 = [⟨['n'], 77, 5⟩]) ∧
    ((['s'] : GoStr) = [] → ([] : GoStr) ≠ [] →
      hostObs c3Acc [] ['n'] 77 = [⟨[], ['n'], 77, 5⟩]) := by
  have h := getMetricsData_applies_defaults [] [(c3Label, 5)] 77 ([], []) c3Acc
    c3Label 5 ⟨['s'], [], ['n']⟩ rfl (List.mem_singleton.mpr rfl) (by decide)
    rfl (by simp [seenLabels])
    (by
      intro s n t
      simp [smLookup])
    (by
      intro hid n t
      simp)
  exact h.1

/-- A non-2xx response turns into the error carrying its status and body. -/
theorem postJSONResult_non2xx (r : HttpResp)
    (h : r.statusCode < 200 ∨ 300 ≤ r.statusCode) :
    postJSONResult r = some ⟨r.statusCode, r.body⟩ := by
  rw [postJSONResult, if_pos h]
  rfl

/-- A 2xx response is a successful attempt. -/
theorem postJSONResult_2xx (r : HttpResp)
    (h1 : 200 ≤ r.statusCode) (h2 : r.statusCode < 300) :
    postJSONResult r = none := by
  rw [postJSONResult, if_neg (by omega)]

/-- The classification of `Error.Temporary`: retryable exactly for a 5xx
status or 429. -/
theorem temporary_iff (e : MackerelError) :
    e.Temporary = true ↔ (500 ≤ e.statusCode ∨ e.statusCode = 429) := by
  simp [MackerelError.Temporary, Bool.or_eq_true, decide_eq_true_eq]

/-- Any other non-2xx status is not retryable. -/
theorem temporary_false (s : Int) (b : GoStr)
    (h1 : ¬500 ≤ s) (h2 : s ≠ 429) :
    MackerelError.Temporary ⟨s, b⟩ = false := by
  rw [Bool.eq_false_iff]
  intro hT
  rcases (temporary_iff ⟨s, b⟩).mp hT with h | h
  · exact h1 h
  · exact h2 h

/-- The retry loop succeeds with `k + 1` attempts when the first `k`
attempts fail retryably and attempt `k` (0-based) succeeds. -/
theorem retryLoop_success (f : Nat → Option MackerelError) :
    ∀ (k i fuel : Nat),
      (∀ j, j < k → ∃ e, f (i + j) = some e ∧ e.Temporary = true) →
      f (i + k) = none → k < fuel →
      retryLoop f i fuel = (none, i + k + 1) := by
  intro k
  induction k with
  | zero =>
    intro i fuel hprev hk hfuel
    cases fuel with
    | zero => omega
    | succ fu =>
      rw [Nat.add_zero] at hk
      rw [retryLoop, hk]
  | succ k ih =>
    intro i fuel hprev hk hfuel
    cases fuel with
    | zero => omega
    | succ fu =>
      obtain ⟨e, he, het⟩ := hprev 0 (by omega)
      rw [Nat.add_zero] at he
      cases fu with
      | zero => omega
      | succ fu1 =>
        have hrec := ih (i + 1) (fu1 + 1)
          (fun j hj => by
            have h2 := hprev (j + 1) (by omega)
            rwa [show i + (j + 1) = i + 1 + j by omega] at h2)
          (by rwa [show i + 1 + k = i + (k + 1) by omega])
          (by omega)
        rw [retryLoop, he]
        simp only [het, eq_self_iff_true, if_true]
        rw [hrec]
        exact Prod.ext rfl (by omega)

/-- The retry loop stops after `k + 1` attempts when the first `k` attempts
fail retryably and attempt `k` fails fatally, returning that error. -/
theorem retryLoop_fatal (f : Nat → Option MackerelError) :
    ∀ (k i fuel : Nat) (e : MackerelError),
      (∀ j, j < k → ∃ e2, f (i + j) = some e2 ∧ e2.Temporary = true) →
      f (i + k) = some e → e.Temporary = false → k < fuel →
      retryLoop f i fuel = (some e, i + k + 1) := by
  intro k
  induction k with
  | zero =>
    intro i fuel e hprev hk het hfuel
    cases fuel with
    | zero => omega
    | succ fu =>
      rw [Nat.add_zero] at hk
      rw [retryLoop, hk]
      simp only [het, Bool.false_eq_true, if_false]
  | succ k ih =>
    intro i fuel e hprev hk het hfuel
    cases fuel with
    | zero => omega
    | succ fu =>
      obtain ⟨e0, he0, het0⟩ := hprev 0 (by omega)
      rw [Nat.add_zero] at he0
      cases fu with
      | zero => omega
      | succ fu1 =>
        have hrec := ih (i + 1) (fu1 + 1) e
          (fun j hj => by
            have h2 := hprev (j + 1) (by omega)
            rwa [show i + (j + 1) = i + 1 + j by omega] at h2)
          (by rwa [show i + 1 + k = i + (k + 1) by omega])
          het (by omega)
        rw [retryLoop, he0]
        simp only [het0, eq_self_iff_true, if_true]
        rw [hrec]
        exact Prod.ext rfl (by omega)

/-- Exhausting the attempt budget with retryable failures returns the last
observed error after exactly `fuel` attempts. -/
theorem retryLoop_exhaust (f : Nat → Option MackerelError) :
    ∀ (fuel i : Nat) (e : MackerelError), 1 ≤ fuel →
      (∀ j, j < fuel → ∃ e2, f (i + j) = some e2 ∧ e2.Temporary = true) →
      f (i + (fuel - 1)) = some e →
      retryLoop f i fuel = (some e, i + fuel) := by
  intro fuel
  induction fuel with
  | zero =>
    intro i e h1
    omega
  | succ fu ih =>
    intro i e h1 hall hlast
    cases fu with
    | zero =>
      obtain ⟨e2, he2, het2⟩ := hall 0 (by omega)
      rw [Nat.add_zero] at he2
      rw [show (0 + 1 - 1 : Nat) = 0 from rfl, Nat.add_zero] at hlast
      have hee : e2 = e := Option.some.inj (he2.symm.trans hlast)
      subst hee
      rw [retryLoop, he2]
      simp only [het2, eq_self_iff_true, if_true]
    | succ fu1 =>
      obtain ⟨e0, he0, het0⟩ := hall 0 (by omega)
      rw [Nat.add_zero] at he0
      have hrec := ih (i + 1) e (by omega)
        (fun j hj => by
          have h2 := hall (j + 1) (by omega)
          rwa [show i + (j + 1) = i + 1 + j by omega] at h2)
        (by rwa [show i + (fu1 + 1 + 1 - 1) = i + 1 + (fu1 + 1 - 1) by omega] at hlast)
      rw [retryLoop, he0]
      simp only [het0, eq_self_iff_true, if_true]
      rw [hrec]
      exact Prod.ext rfl (by omega)

/-- C5: a delivery attempt answered with 5xx or 429 yields a retryable
error and another attempt follows, up to the policy's maximum count with
the last observed error returned on exhaustion; any other non-2xx status is
fatal, consumes exactly one further attempt, and the returned error carries
that status code and the response body text.  The host-metric variant runs
the identical retry pipeline. -/
theorem delivery_retry_policy (rs : Nat → HttpResp) (maxCount : Nat) :
    (∀ e : MackerelError, e.Temporary = true ↔ (500 ≤ e.statusCode ∨ e.statusCode = 429)) ∧
    (∀ (values : List ServiceMetricValue) (k : Nat), values ≠ [] →
      (∀ j, j < k → ((rs j).statusCode < 200 ∨ 300 ≤ (rs j).statusCode) ∧
        (500 ≤ (rs j).statusCode ∨ (rs j).statusCode = 429)) →
      200 ≤ (rs k).statusCode → (rs k).statusCode < 300 → k < maxCount →
      PostServiceMetricValues maxCount rs values = (none, k + 1)) ∧
    (∀ (values : List ServiceMetricValue) (k : Nat), values ≠ [] →
      (∀ j, j < k → ((rs j).statusCode < 200 ∨ 300 ≤ (rs j).statusCode) ∧
        (500 ≤ (rs j).statusCode ∨ (rs j).statusCode = 429)) →
      ((rs k).statusCode < 200 ∨ 300 ≤ (rs k).statusCode) →
      ¬500 ≤ (rs k).statusCode → (rs k).statusCode ≠ 429 → k < maxCount →
      PostServiceMetricValues maxCount rs values =
        (some ⟨(rs k).statusCode, (rs k).body⟩, k + 1)) ∧
    (∀ values : List ServiceMetricValue, values ≠ [] → 1 ≤ maxCount →
      (∀ j, j < maxCount → ((rs j).statusCode < 200 ∨ 300 ≤ (rs j).statusCode) ∧
        (500 ≤ (rs j).statusCode ∨ (rs j).statusCode = 429)) →
      PostServiceMetricValues maxCount rs values =
        (some ⟨(rs (maxCount - 1)).statusCode, (rs (maxCount - 1)).body⟩, maxCount)) ∧
    (∀ values : List HostMetricValue, values ≠ [] →
      PostHostMetricValues maxCount rs values =
        retryDo maxCount (fun i => postJSONResult (rs i))) := by
  refine ⟨temporary_iff, ?_, ?_, ?_, ?_⟩
  · intro values k hvals hprev h200 h300 hmax
    rw [PostServiceMetricValues, if_neg hvals]
    have h := retryLoop_success (fun i => postJSONResult (rs i)) k 0 maxCount
      (fun j hj => ⟨⟨(rs j).statusCode, (rs j).body⟩, by
        rw [Nat.zero_add]
        exact postJSONResult_non2xx _ (hprev j hj).1,
        (temporary_iff _).mpr (hprev j hj).2⟩)
      (by rw [Nat.zero_add]; exact postJSONResult_2xx _ h200 h300)
      hmax
    rw [retryDo, h]
    exact Prod.ext rfl (by omega)
  · intro values k hvals hprev hnon hlt429 hne429 hmax
    rw [PostServiceMetricValues, if_neg hvals]
    have h := retryLoop_fatal (fun i => postJSONResult (rs i)) k 0 maxCount
      ⟨(rs k).statusCode, (rs k).body⟩
      (fun j hj => ⟨⟨(rs j).statusCode, (rs j).body⟩, by
        rw [Nat.zero_add]
        exact postJSONResult_non2xx _ (hprev j hj).1,
        (temporary_iff _).mpr (hprev j hj).2⟩)
      (by rw [Nat.zero_add]; exact postJSONResult_non2xx _ hnon)
      (temporary_false _ _ hlt429 hne429)
      hmax
    rw [retryDo, h]
    exact Prod.ext rfl (by omega)
  · intro values hvals hone hall
    rw [PostServiceMetricValues, if_neg hvals]
    have h := retryLoop_exhaust (fun i => postJSONResult (rs i)) maxCount 0
      ⟨(rs (maxCount - 1)).statusCode, (rs (maxCount - 1)).body⟩ hone
      (fun j hj => ⟨⟨(rs j).statusCode, (rs j).body⟩, by
        rw [Nat.zero_add]
        exact postJSONResult_non2xx _ (hall j hj).1,
        (temporary_iff _).mpr (hall j hj).2⟩)
      (by
        rw [Nat.zero_add]
        exact postJSONResult_non2xx _ (hall (maxCount - 1) (by omega)).1)
    rw [retryDo, h]
    exact Prod.ext rfl (by omega)
  · intro values hvals
    rw [PostHostMetricValues, if_neg hvals]

/-- Witness for C5: the spec's three delivery scenarios — 500 then 200 gives
2 attempts and success; ten 429s give 10 attempts and a 429 error; a 403
gives 1 attempt and a fatal error carrying the status and body. -/
theorem delivery_retry_policy_witness :
    PostServiceMetricValues 10 rsTransient [⟨['n'], 0, 1⟩] = (none, 2) ∧
    PostServiceMetricValues 10 rs429 [⟨['n'], 0, 1⟩] = (some ⟨429, []⟩, 10) ∧
    PostServiceMetricValues 10 rs403 [⟨['n'], 0, 1⟩] = (some ⟨403, ['f', 'b']⟩, 1) := by
  refine ⟨?_, ?_, ?_⟩
  · exact (delivery_retry_policy rsTransient 10).2.1 [⟨['n'], 0, 1⟩] 1
      (by decide) (by decide) (by decide) (by decide) (by decide)
  · exact (delivery_retry_policy rs429 10).2.2.2.1 [⟨['n'], 0, 1⟩]
      (by decide) (by decide) (by decide)
  · exact (delivery_retry_policy rs403 10).2.2.1 [⟨['n'], 0, 1⟩] 0
      (by decide) (by decide) (by decide) (by decide) (by decide) (by decide)
